import Mathlib

/-!
Verification of the LRU + TTL cache implementations in this repository.

The repository contains several near-identical Go implementations of an
in-memory LRU cache with optional per-entry TTL expiration.  This file gives a
shallow embedding of the implementations the claims refer to:

* `Lru`      — the canonical implementation (`src/unnamed/part_003`,
               `package lru` with `New/Set/SetWithTTL/Get/Delete/Len/Close`).
* `Agent14`  — `src/agent14/lru.go`.
* `Agent13`  — `src/agent13/lru.go`.
* `Agent1`   — `src/agent1/lru.go`.
* `Agent3`   — `src/agent3/lrucache/lrucache.go`.
* `Agent11`  — `src/agent11/lru/cache.go`, first document (the generic cache
               with `Peek`).
* `Agent11B` — `src/agent11/lru/cache.go`, second document (the `LRU` type
               whose `cleanup` walks from the back and `break`s at the first
               non-expired entry).
* `Part006`  — `src/unnamed/part_006` (the cache with `Peek` and a janitor).
* `Agent12`  — `src/agent12/internal/lru/lru.go` (`Close` only).

Modelling conventions, applied uniformly:

* Instants (`time.Time`) are integers; durations (`time.Duration`) are
  integers.  `t.Add(d)` is `t + d`, `a.After(b)` is `a > b`, `a.Before(b)` is
  `a < b`.  Where a zero `time.Time` is used as a "no expiry" sentinel
  (`expiresAt.IsZero()`), the field is modelled as `Option Int` with `none`
  for the sentinel.  Implementations that never test `IsZero` keep a plain
  `Int`.
* Each implementation keeps a hash map from key to list element together with
  a doubly-linked recency list, and every mutation updates both in lock step,
  so the pair is modelled by the recency list alone (front of the Lean list =
  front of `container/list` = most recently used).  Map lookup is key search
  in the list; `len(map)` is the list length.
* The clock (`time.Now` / the injected `clock`) is passed to each operation
  as an explicit `now` argument.
* The mutex serialises operations; an operation sequence is modelled as a
  list of operations applied in order.  The background sweeper's body is
  modelled as the state transformer it applies under the lock, and its
  tick/stop loop as a small step function on the goroutine's status.
* Go panics are modelled with `Except`: `close` of an already-closed channel
  is the error case.
-/

namespace Lru

/-- An entry of the canonical cache (`entry[K, V]` in `part_003`):
key, value and absolute expiry instant.  `none` models the zero
`time.Time` ("never expires"). -/
structure Entry (K V : Type) where
  key : K
  value : V
  expiresAt : Option Int
deriving DecidableEq, Repr

/-- Errors returned by the canonical implementation. -/
inductive Err where
  | ErrInvalidCapacity
  | ErrNegativeTTL
deriving DecidableEq, Repr

/-- Cache state (`Cache[K, V]` in `part_003`): fixed capacity, the recency
list (front = most recently used; the `entries` map is the same key set) and
the configured default TTL.  `capacity` is a `Nat` because `New` validates
`capacity > 0` before storing it. -/
structure Cache (K V : Type) where
  capacity : Nat
  order : List (Entry K V)
  defaultTTL : Int
deriving DecidableEq, Repr

variable {K V : Type} [DecidableEq K]

/-- Lookup `c.entries[key]`: the (unique) entry with the given key. -/
def findEntry? (l : List (Entry K V)) (key : K) : Option (Entry K V) :=
  l.find? (fun e => decide (e.key = key))

/-- `removeElementLocked`: delete the entry for `key` from the map and the
recency list. -/
def removeKey (l : List (Entry K V)) (key : K) : List (Entry K V) :=
  l.eraseP (fun e => decide (e.key = key))

/-- `isExpired`: an entry is expired iff its expiry is set and not after
`now`, i.e. `now ≥ expiresAt`. -/
def isExpired (e : Entry K V) (now : Int) : Bool :=
  match e.expiresAt with
  | none => false
  | some t => decide (t ≤ now)

/-- `New`: validates that the capacity is positive and the default TTL
non-negative, otherwise fails; no clamping. -/
def New (K V : Type) (capacity : Int) (defaultTTL : Int) : Except Err (Cache K V) :=
  if capacity ≤ 0 then .error .ErrInvalidCapacity
  else if defaultTTL < 0 then .error .ErrNegativeTTL
  else .ok { capacity := capacity.toNat, order := [], defaultTTL := defaultTTL }

/-- `enforceCapacityLocked`: repeatedly evict the entry at the back of the
recency list while the size exceeds the capacity.  (The `tail == nil` guard
of the source is the empty-list case, unreachable when the condition holds
because `capacity ≥ 0`.) -/
def enforceCapacityLocked (capacity : Nat) (l : List (Entry K V)) : List (Entry K V) :=
  if l.length > capacity then
    enforceCapacityLocked capacity l.dropLast
  else l
termination_by l.length
decreasing_by
  simp only [List.length_dropLast]
  omega

/-- `SetWithTTL`: reject negative TTL; a zero TTL falls back to the default
TTL; a positive effective TTL sets `expiresAt = now + ttl`, otherwise the
expiry stays unset.  An existing key is updated in place and moved to the
front; a new key is pushed at the front and capacity is then enforced. -/
def SetWithTTL (c : Cache K V) (now : Int) (key : K) (value : V) (ttl : Int) :
    Except Err (Cache K V) :=
  if ttl < 0 then .error .ErrNegativeTTL
  else
    let ttlToUse := if ttl = 0 then c.defaultTTL else ttl
    let expiresAt : Option Int := if ttlToUse > 0 then some (now + ttlToUse) else none
    match findEntry? c.order key with
    | some ent =>
      .ok { c with order :=
        { ent with value := value, expiresAt := expiresAt } :: removeKey c.order key }
    | none =>
      .ok { c with order :=
        enforceCapacityLocked c.capacity (⟨key, value, expiresAt⟩ :: c.order) }

/-- `Set`: `SetWithTTL` with TTL 0 (i.e. the default TTL, if any). -/
def Set (c : Cache K V) (now : Int) (key : K) (value : V) : Except Err (Cache K V) :=
  SetWithTTL c now key value 0

/-- `Get`: a missing key is a miss; an expired entry is removed and reported
missing; otherwise the entry is promoted to the front and its value
returned. -/
def Get (c : Cache K V) (now : Int) (key : K) : Option V × Cache K V :=
  match findEntry? c.order key with
  | none => (none, c)
  | some ent =>
    if isExpired ent now then
      (none, { c with order := removeKey c.order key })
    else
      (some ent.value, { c with order := ent :: removeKey c.order key })

/-- `Delete`: remove the key if present, reporting whether a removal
occurred.  The clock is never consulted. -/
def Delete (c : Cache K V) (key : K) : Bool × Cache K V :=
  match findEntry? c.order key with
  | none => (false, c)
  | some _ => (true, { c with order := removeKey c.order key })

/-- The body of the `removeExpiredLocked` loop.  The argument list is in
back-to-front order (starting from `order.Back()`); every expired element
visited is removed and the walk continues with its predecessor — there is no
early exit. -/
def sweepFromBack (now : Int) : List (Entry K V) → List (Entry K V)
  | [] => []
  | e :: towardFront =>
    if isExpired e now then sweepFromBack now towardFront
    else e :: sweepFromBack now towardFront

/-- `removeExpiredLocked`: walk the recency list from the back towards the
front, removing every expired entry. -/
def removeExpiredLocked (now : Int) (l : List (Entry K V)) : List (Entry K V) :=
  (sweepFromBack now l.reverse).reverse

/-- `Len`: purge expired entries, then return the number of remaining
entries (together with the purged state). -/
def Len (c : Cache K V) (now : Int) : Nat × Cache K V :=
  let purged := { c with order := removeExpiredLocked now c.order }
  (purged.order.length, purged)

/-- The lifecycle fields of the canonical cache relevant to `Close`:
whether `stopOnce` has fired and whether `stopCh` has been closed. -/
structure Lifecycle where
  onceDone : Bool
  stopClosed : Bool
deriving DecidableEq, Repr

/-- The run-time faults `Close` could raise: in Go, `close` of an
already-closed channel panics. -/
inductive GoPanic where
  | closeOfClosedChannel
deriving DecidableEq, Repr

/-- The lifecycle state right after `New`. -/
def newLifecycle : Lifecycle :=
  { onceDone := false, stopClosed := false }

/-- `Close`: `stopOnce.Do(func() { close(c.stopCh) })`.  The `sync.Once`
guard makes the second and later calls no-ops. -/
def Close (s : Lifecycle) : Except GoPanic Lifecycle :=
  if s.onceDone then .ok s
  else if s.stopClosed then .error .closeOfClosedChannel
  else .ok { onceDone := true, stopClosed := true }

/-- Events observed by the `runCleanup` goroutine's `select`. -/
inductive SweeperEvent where
  | tick
  | stopObserved
deriving DecidableEq, Repr

/-- One iteration of the `runCleanup` loop: while running, a tick fires a
sweep; observing the closed stop channel makes the goroutine return, after
which nothing fires.  The pair is (still running, fired a sweep). -/
def runCleanupStep (running : Bool) (ev : SweeperEvent) : Bool × Bool :=
  match running, ev with
  | false, _ => (false, false)
  | true, .tick => (true, true)
  | true, .stopObserved => (false, false)

/-- Number of sweeps the `runCleanup` loop fires over a sequence of events,
starting from the given status. -/
def sweepsFired (running : Bool) : List SweeperEvent → Nat
  | [] => 0
  | ev :: evs =>
    let s := runCleanupStep running ev
    (if s.2 then 1 else 0) + sweepsFired s.1 evs

/-- An operation issued by a caller (the clock reading at which it runs is
part of the operation, since the clock is injectable). -/
inductive Op (K V : Type) where
  | set (now : Int) (key : K) (value : V) (ttl : Int)
  | get (now : Int) (key : K)
  | del (key : K)
  | len (now : Int)
deriving DecidableEq, Repr

/-- Apply one operation to the cache state (a failed `SetWithTTL` leaves the
state unchanged). -/
def step (c : Cache K V) : Op K V → Cache K V
  | .set now k v ttl =>
    match SetWithTTL c now k v ttl with
    | .ok c2 => c2
    | .error _ => c
  | .get now k => (Get c now k).2
  | .del k => (Delete c k).2
  | .len now => (Len c now).2

/-- The empty cache produced by a successful `New`. -/
def empty (K V : Type) (capacity : Nat) (defaultTTL : Int) : Cache K V :=
  { capacity := capacity, order := [], defaultTTL := defaultTTL }

/-- Run a sequence of operations from the empty cache. -/
def run (capacity : Nat) (defaultTTL : Int) (ops : List (Op K V)) : Cache K V :=
  ops.foldl step (empty K V capacity defaultTTL)

end Lru

namespace Agent14

/-- Entry of `src/agent14/lru.go`: `none` models the zero `time.Time`. -/
structure Entry (V : Type) where
  key : String
  value : V
  expiresAt : Option Int
deriving DecidableEq, Repr

/-- Cache of `src/agent14/lru.go`.  The capacity stays an `Int` because `New`
does not validate it — it silently replaces a non-positive value by 128. -/
structure Cache (V : Type) where
  capacity : Int
  order : List (Entry V)
deriving DecidableEq, Repr

/-- `New`: a non-positive configured capacity is silently clamped to 128 and
a usable cache is returned; construction never fails. -/
def New (V : Type) (cfgCapacity : Int) : Cache V :=
  { capacity := if cfgCapacity ≤ 0 then 128 else cfgCapacity, order := [] }

/-- Key lookup in `c.items`. -/
def findEntry? {V : Type} (l : List (Entry V)) (key : String) : Option (Entry V) :=
  l.find? (fun e => decide (e.key = key))

/-- `removeElementLocked`. -/
def removeKey {V : Type} (l : List (Entry V)) (key : String) : List (Entry V) :=
  l.eraseP (fun e => decide (e.key = key))

/-- `Set`: `ttl > 0` sets `expiresAt = now + ttl`, otherwise the expiry stays
unset.  An existing key is updated and promoted; a new key is pushed at the
front, and if the size now exceeds the capacity the back entry is removed
(a single removal). -/
def Set {V : Type} (c : Cache V) (now : Int) (key : String) (value : V) (ttl : Int) :
    Cache V :=
  let expiresAt : Option Int := if ttl > 0 then some (now + ttl) else none
  match findEntry? c.order key with
  | some ent =>
    { c with order := { ent with value := value, expiresAt := expiresAt } :: removeKey c.order key }
  | none =>
    let pushed := (⟨key, value, expiresAt⟩ : Entry V) :: c.order
    if (pushed.length : Int) > c.capacity then { c with order := pushed.dropLast }
    else { c with order := pushed }

/-- `Get`: hit iff the expiry is unset or `now` is before it (so at
`now = expiresAt` the entry is already expired); a hit promotes, an expired
entry is removed.  `none` stands for the `ErrNotFound` result. -/
def Get {V : Type} (c : Cache V) (now : Int) (key : String) : Option V × Cache V :=
  match findEntry? c.order key with
  | none => (none, c)
  | some ent =>
    match ent.expiresAt with
    | none => (some ent.value, { c with order := ent :: removeKey c.order key })
    | some t =>
      if now < t then (some ent.value, { c with order := ent :: removeKey c.order key })
      else (none, { c with order := removeKey c.order key })

/-- `Delete`: remove the key if physically present, without consulting the
clock. -/
def Delete {V : Type} (c : Cache V) (key : String) : Bool × Cache V :=
  match findEntry? c.order key with
  | none => (false, c)
  | some _ => (true, { c with order := removeKey c.order key })

/-- `Len`: returns `len(c.items)` — the raw resident count, with no
expiry purge. -/
def Len {V : Type} (c : Cache V) : Nat :=
  c.order.length

/-- The sweep test of `removeExpired`: expiry set and `now` strictly after
it. -/
def sweepExpired {V : Type} (e : Entry V) (now : Int) : Bool :=
  match e.expiresAt with
  | none => false
  | some t => decide (now > t)

/-- Body of the `removeExpired` loop, argument in back-to-front order;
every entry whose expiry has strictly passed is removed, with no early
exit. -/
def sweepFromBack {V : Type} (now : Int) : List (Entry V) → List (Entry V)
  | [] => []
  | e :: towardFront =>
    if sweepExpired e now then sweepFromBack now towardFront
    else e :: sweepFromBack now towardFront

/-- `removeExpired`: full back-to-front scan. -/
def removeExpired {V : Type} (c : Cache V) (now : Int) : Cache V :=
  { c with order := (sweepFromBack now c.order.reverse).reverse }

/-- `Close`: `close(c.stopCh)` with no guard — a second call closes an
already-closed channel, which panics in Go.  The state is whether `stopCh`
is closed. -/
def Close (stopClosed : Bool) : Except Lru.GoPanic Bool :=
  if stopClosed then .error .closeOfClosedChannel
  else .ok true

end Agent14

namespace Agent13

/-- Entry of `src/agent13/lru.go`: `none` models the zero `time.Time`. -/
structure Entry (V : Type) where
  key : String
  value : V
  expiration : Option Int
deriving DecidableEq, Repr

/-- Cache of `src/agent13/lru.go` (capacity ≤ 0 is clamped to 100 by
`New`). -/
structure Cache (V : Type) where
  capacity : Int
  evictList : List (Entry V)
deriving DecidableEq, Repr

/-- `New`: clamps a non-positive capacity to 100. -/
def New (V : Type) (capacity : Int) : Cache V :=
  { capacity := if capacity ≤ 0 then 100 else capacity, evictList := [] }

/-- Key lookup in `c.items`. -/
def findEntry? {V : Type} (l : List (Entry V)) (key : String) : Option (Entry V) :=
  l.find? (fun e => decide (e.key = key))

/-- `removeElement`. -/
def removeKey {V : Type} (l : List (Entry V)) (key : String) : List (Entry V) :=
  l.eraseP (fun e => decide (e.key = key))

/-- `Set`: `ttl > 0` sets `expiration = now + ttl`, otherwise unset; update
and promote an existing key, push a new one and remove the back entry when
over capacity. -/
def Set {V : Type} (c : Cache V) (now : Int) (key : String) (value : V) (ttl : Int) :
    Cache V :=
  let expiration : Option Int := if ttl > 0 then some (now + ttl) else none
  match findEntry? c.evictList key with
  | some ent =>
    { c with evictList :=
      { ent with value := value, expiration := expiration } :: removeKey c.evictList key }
  | none =>
    let pushed := (⟨key, value, expiration⟩ : Entry V) :: c.evictList
    if (pushed.length : Int) > c.capacity then { c with evictList := pushed.dropLast }
    else { c with evictList := pushed }

/-- `Get`: an entry is treated as expired only when its expiration is set and
`now` is strictly after it — at `now = expiration` the entry is still
returned and promoted. -/
def Get {V : Type} (c : Cache V) (now : Int) (key : String) : Option V × Cache V :=
  match findEntry? c.evictList key with
  | none => (none, c)
  | some ent =>
    match ent.expiration with
    | some t =>
      if now > t then (none, { c with evictList := removeKey c.evictList key })
      else (some ent.value, { c with evictList := ent :: removeKey c.evictList key })
    | none => (some ent.value, { c with evictList := ent :: removeKey c.evictList key })

end Agent13

namespace Agent1

/-- Entry of `src/agent1/lru.go`: the expiry is always set, to
`now + ttl`, with no sentinel. -/
structure Entry (V : Type) where
  key : String
  value : V
  expiresAt : Int
deriving DecidableEq, Repr

/-- Cache of `src/agent1/lru.go` (capacity ≤ 0 is clamped to 1 by `New`). -/
structure Cache (V : Type) where
  capacity : Int
  evictList : List (Entry V)
deriving DecidableEq, Repr

/-- `New`: clamps a non-positive capacity to 1. -/
def New (V : Type) (capacity : Int) : Cache V :=
  { capacity := if capacity ≤ 0 then 1 else capacity, evictList := [] }

/-- Key lookup in `c.items`. -/
def findEntry? {V : Type} (l : List (Entry V)) (key : String) : Option (Entry V) :=
  l.find? (fun e => decide (e.key = key))

/-- `removeEntry` / `removeElement`. -/
def removeKey {V : Type} (l : List (Entry V)) (key : String) : List (Entry V) :=
  l.eraseP (fun e => decide (e.key = key))

/-- `Set`: unconditionally computes `expiresAt = now + ttl` (also for zero or
negative TTL); update-and-promote or push-then-evict-one. -/
def Set {V : Type} (c : Cache V) (now : Int) (key : String) (value : V) (ttl : Int) :
    Cache V :=
  let expiresAt : Int := now + ttl
  match findEntry? c.evictList key with
  | some ent =>
    { c with evictList :=
      { ent with value := value, expiresAt := expiresAt } :: removeKey c.evictList key }
  | none =>
    let pushed := (⟨key, value, expiresAt⟩ : Entry V) :: c.evictList
    if (pushed.length : Int) > c.capacity then { c with evictList := pushed.dropLast }
    else { c with evictList := pushed }

/-- `Get`: expired iff `now` is strictly after `expiresAt`; an expired entry
is removed and reported missing, a live one is promoted. -/
def Get {V : Type} (c : Cache V) (now : Int) (key : String) : Option V × Cache V :=
  match findEntry? c.evictList key with
  | none => (none, c)
  | some ent =>
    if now > ent.expiresAt then (none, { c with evictList := removeKey c.evictList key })
    else (some ent.value, { c with evictList := ent :: removeKey c.evictList key })

end Agent1

namespace Agent3

/-- Entry of `src/agent3/lrucache/lrucache.go`: the expiry is always set to
`now + ttl`. -/
structure Entry (K V : Type) where
  key : K
  value : V
  expiresAt : Int
deriving DecidableEq, Repr

/-- Cache of `src/agent3/lrucache/lrucache.go`; `New` stores the capacity
unvalidated, and `maxEntries = 0` means unbounded. -/
structure Cache (K V : Type) where
  maxEntries : Int
  ll : List (Entry K V)
deriving DecidableEq, Repr

/-- `New`: stores the capacity without validation. -/
def New (K V : Type) (maxEntries : Int) : Cache K V :=
  { maxEntries := maxEntries, ll := [] }

variable {K V : Type} [DecidableEq K]

/-- Key lookup in `c.cache`. -/
def findEntry? (l : List (Entry K V)) (key : K) : Option (Entry K V) :=
  l.find? (fun e => decide (e.key = key))

/-- `removeElement`. -/
def removeKey (l : List (Entry K V)) (key : K) : List (Entry K V) :=
  l.eraseP (fun e => decide (e.key = key))

/-- `Add`: always sets `expiresAt = now + ttl`; update-and-promote an
existing key, otherwise push at the front and, when `maxEntries ≠ 0` and the
size exceeds it, remove the single oldest entry. -/
def Add (c : Cache K V) (now : Int) (key : K) (value : V) (ttl : Int) : Cache K V :=
  match findEntry? c.ll key with
  | some ent =>
    { c with ll := { ent with value := value, expiresAt := now + ttl } :: removeKey c.ll key }
  | none =>
    let pushed := (⟨key, value, now + ttl⟩ : Entry K V) :: c.ll
    if c.maxEntries ≠ 0 ∧ (pushed.length : Int) > c.maxEntries then
      { c with ll := pushed.dropLast }
    else { c with ll := pushed }

/-- `Get`: expired iff `now` is strictly after `expiresAt`. -/
def Get (c : Cache K V) (now : Int) (key : K) : Option V × Cache K V :=
  match findEntry? c.ll key with
  | none => (none, c)
  | some ent =>
    if now > ent.expiresAt then (none, { c with ll := removeKey c.ll key })
    else (some ent.value, { c with ll := ent :: removeKey c.ll key })

end Agent3

namespace Agent11

/-- Entry of the first document of `src/agent11/lru/cache.go`: `none` models
the zero `time.Time` produced by `expiryTime` for a non-positive TTL. -/
structure Entry (K V : Type) where
  key : K
  value : V
  expires : Option Int
deriving DecidableEq, Repr

/-- Cache of the first document of `src/agent11/lru/cache.go`.  `New` panics
unless the capacity is positive, so it is a `Nat` here. -/
structure Cache (K V : Type) where
  capacity : Nat
  evictionList : List (Entry K V)
  defaultTTL : Int
deriving DecidableEq, Repr

variable {K V : Type} [DecidableEq K]

/-- Key lookup in `c.items`. -/
def findEntry? (l : List (Entry K V)) (key : K) : Option (Entry K V) :=
  l.find? (fun e => decide (e.key = key))

/-- `removeElementLocked`. -/
def removeKey (l : List (Entry K V)) (key : K) : List (Entry K V) :=
  l.eraseP (fun e => decide (e.key = key))

/-- `expiryTime`: a TTL of zero or negative yields the unset expiry. -/
def expiryTime (now : Int) (ttl : Int) : Option Int :=
  if ttl ≤ 0 then none else some (now + ttl)

/-- `isExpired`: expiry set and `now` strictly after it. -/
def isExpired (e : Entry K V) (now : Int) : Bool :=
  match e.expires with
  | none => false
  | some t => decide (now > t)

/-- `purgeExpiredLocked`: full back-to-front scan removing every expired
entry (the `continue` branch just moves the cursor). -/
def purgeFromBack (now : Int) : List (Entry K V) → List (Entry K V)
  | [] => []
  | e :: towardFront =>
    if isExpired e now then purgeFromBack now towardFront
    else e :: purgeFromBack now towardFront

/-- `purgeExpiredLocked` applied to the recency list (front-first order). -/
def purgeExpiredLocked (now : Int) (l : List (Entry K V)) : List (Entry K V) :=
  (purgeFromBack now l.reverse).reverse

/-- The `for c.evictionList.Len() >= c.capacity` loop of `SetWithTTL`:
repeatedly remove the back entry while the size is at least the capacity.
`removeOldestLocked` returns without effect on an empty list; the loop is
modelled as terminating in that (unreachable, since `capacity ≥ 1`) case. -/
def evictWhileFull (capacity : Nat) (l : List (Entry K V)) : List (Entry K V) :=
  if l.length ≥ capacity ∧ l.length ≠ 0 then
    evictWhileFull capacity l.dropLast
  else l
termination_by l.length
decreasing_by
  rename_i h
  simp only [List.length_dropLast]
  omega

/-- `SetWithTTL`: purge expired entries, then update-and-promote an existing
key, or make room (evicting while at capacity) and push the new entry. -/
def SetWithTTL (c : Cache K V) (now : Int) (key : K) (value : V) (ttl : Int) :
    Cache K V :=
  let purged := purgeExpiredLocked now c.evictionList
  match findEntry? purged key with
  | some ent =>
    { c with evictionList :=
      { ent with value := value, expires := expiryTime now ttl } :: removeKey purged key }
  | none =>
    { c with evictionList :=
      (⟨key, value, expiryTime now ttl⟩ : Entry K V) :: evictWhileFull c.capacity purged }

/-- `Set` applies the default TTL. -/
def Set (c : Cache K V) (now : Int) (key : K) (value : V) : Cache K V :=
  SetWithTTL c now key value c.defaultTTL

/-- `Get`: a hit on a live entry promotes it; an expired entry is removed
and reported absent. -/
def Get (c : Cache K V) (now : Int) (key : K) : Option V × Cache K V :=
  match findEntry? c.evictionList key with
  | none => (none, c)
  | some ent =>
    if isExpired ent now then
      (none, { c with evictionList := removeKey c.evictionList key })
    else
      (some ent.value, { c with evictionList := ent :: removeKey c.evictionList key })

/-- `Peek`: identical to `Get` except that a live entry is *not* moved to the
front. -/
def Peek (c : Cache K V) (now : Int) (key : K) : Option V × Cache K V :=
  match findEntry? c.evictionList key with
  | none => (none, c)
  | some ent =>
    if isExpired ent now then
      (none, { c with evictionList := removeKey c.evictionList key })
    else
      (some ent.value, c)

/-- The capacity-eviction victim: the key of the entry at the back of the
recency list. -/
def evictionVictim? (c : Cache K V) : Option K :=
  (c.evictionList.getLast?).map Entry.key

end Agent11

namespace Agent11B

/-- Entry of the second document of `src/agent11/lru/cache.go` (the `LRU`
type): `Put` always sets `expire = now + ttl`. -/
structure Entry (V : Type) where
  key : String
  value : V
  expire : Int
deriving DecidableEq, Repr

/-- The `LRU` state: capacity and recency list. -/
structure LRU (V : Type) where
  capacity : Int
  l : List (Entry V)
deriving DecidableEq, Repr

/-- Key lookup in `lru.items`. -/
def findEntry? {V : Type} (l : List (Entry V)) (key : String) : Option (Entry V) :=
  l.find? (fun e => decide (e.key = key))

/-- Removal of a key from map and list. -/
def removeKey {V : Type} (l : List (Entry V)) (key : String) : List (Entry V) :=
  l.eraseP (fun e => decide (e.key = key))

/-- `Put`: always computes `expire = now + ttl`; update-and-promote an
existing key, otherwise push at the front and drop the back entry when over
capacity. -/
def Put {V : Type} (c : LRU V) (now : Int) (key : String) (value : V) (ttl : Int) :
    LRU V :=
  let expire : Int := now + ttl
  match findEntry? c.l key with
  | some ent =>
    { c with l := { ent with value := value, expire := expire } :: removeKey c.l key }
  | none =>
    let pushed := (⟨key, value, expire⟩ : Entry V) :: c.l
    if (pushed.length : Int) > c.capacity then { c with l := pushed.dropLast }
    else { c with l := pushed }

/-- The body of the `cleanup` tick: walk from the back; remove the entry if
`now` is strictly after its expiry, otherwise `break` — keeping that entry
*and everything in front of it*.  The argument and result are in
back-to-front order. -/
def cleanupFromBack {V : Type} (now : Int) : List (Entry V) → List (Entry V)
  | [] => []
  | e :: towardFront =>
    if now > e.expire then cleanupFromBack now towardFront
    else e :: towardFront

/-- One `cleanup` tick applied to the recency list (front-first order). -/
def cleanupTick {V : Type} (c : LRU V) (now : Int) : LRU V :=
  { c with l := (cleanupFromBack now c.l.reverse).reverse }

end Agent11B

namespace Part006

/-- Entry of `src/unnamed/part_006`: the entry keeps both the requested TTL
and the computed expiry; `expiresAt` is left at the zero value (0 here) when
`ttl ≤ 0` and is never consulted in that case, since the expiry test is
guarded by `ttl > 0`. -/
structure Entry (K V : Type) where
  key : K
  value : V
  expiresAt : Int
  ttl : Int
deriving DecidableEq, Repr

/-- Cache of `src/unnamed/part_006` (`New` panics unless the capacity is
positive, so it is a `Nat` here). -/
structure Cache (K V : Type) where
  cap : Nat
  list : List (Entry K V)
deriving DecidableEq, Repr

variable {K V : Type} [DecidableEq K]

/-- Key lookup in `c.items`. -/
def findEntry? (l : List (Entry K V)) (key : K) : Option (Entry K V) :=
  l.find? (fun e => decide (e.key = key))

/-- `removeElementLocked`. -/
def removeKey (l : List (Entry K V)) (key : K) : List (Entry K V) :=
  l.eraseP (fun e => decide (e.key = key))

/-- The expiry test used by `Get`, `Peek` and `expireScan`:
`ent.ttl > 0 && now.After(ent.expiresAt)`. -/
def isExpired (e : Entry K V) (now : Int) : Bool :=
  decide (e.ttl > 0) && decide (now > e.expiresAt)

/-- `Set`: `ttl > 0` sets `expiresAt = now + ttl` (otherwise the zero
value); update-and-promote an existing key, otherwise remove the oldest
entry when at capacity and push the new entry at the front. -/
def Set (c : Cache K V) (now : Int) (key : K) (value : V) (ttl : Int) : Cache K V :=
  let exp : Int := if ttl > 0 then now + ttl else 0
  match findEntry? c.list key with
  | some ent =>
    { c with list :=
      { ent with value := value, ttl := ttl, expiresAt := exp } :: removeKey c.list key }
  | none =>
    let room := if c.list.length ≥ c.cap then c.list.dropLast else c.list
    { c with list := (⟨key, value, exp, ttl⟩ : Entry K V) :: room }

/-- `Get`: expired entries are evicted and reported absent; a live hit is
promoted to the front. -/
def Get (c : Cache K V) (now : Int) (key : K) : Option V × Cache K V :=
  match findEntry? c.list key with
  | none => (none, c)
  | some ent =>
    if isExpired ent now then
      (none, { c with list := removeKey c.list key })
    else
      (some ent.value, { c with list := ent :: removeKey c.list key })

/-- `Peek`: like `Get` but a live hit is returned without promotion. -/
def Peek (c : Cache K V) (now : Int) (key : K) : Option V × Cache K V :=
  match findEntry? c.list key with
  | none => (none, c)
  | some ent =>
    if isExpired ent now then
      (none, { c with list := removeKey c.list key })
    else
      (some ent.value, c)

/-- `Delete`: remove the key if physically present; no clock involved. -/
def Delete (c : Cache K V) (key : K) : Bool × Cache K V :=
  match findEntry? c.list key with
  | none => (false, c)
  | some _ => (true, { c with list := removeKey c.list key })

/-- The capacity-eviction victim (`removeOldestLocked` target): the key at
the back of the recency list. -/
def evictionVictim? (c : Cache K V) : Option K :=
  (c.list.getLast?).map Entry.key

end Part006

namespace Agent12

/-- `Close` of `src/agent12/internal/lru/lru.go`:
`closeOnce.Do(func() { close(c.stopCh); c.wg.Wait() })` — idempotent via
`sync.Once`, like the canonical implementation. -/
def Close (s : Lru.Lifecycle) : Except Lru.GoPanic Lru.Lifecycle :=
  if s.onceDone then .ok s
  else if s.stopClosed then .error .closeOfClosedChannel
  else .ok { onceDone := true, stopClosed := true }

end Agent12

namespace Spec

/-- The spec's expiry test, stated in its own words: an entry is expired iff
its expiry is set and the current clock reading is at or after it
(`now ≥ expiresAt`).  Used to compare the implementations' behaviour against
the specification. -/
def expired (expiresAt : Option Int) (now : Int) : Bool :=
  match expiresAt with
  | none => false
  | some t => decide (now ≥ t)

/-- The spec's notion of the live size: the number of resident entries that
are not expired at the given instant buildable from the entries' expiry
fields. -/
def liveCount (expiries : List (Option Int)) (now : Int) : Nat :=
  (expiries.filter (fun x => !expired x now)).length

end Spec

namespace Lru

/-- Ghost-instrumented cache state used to express "least recently touched".
`touch k` is the step index of the last successful `Set` of `k` or `Get` hit
on `k` (the two operations that relocate an entry to the front of the
recency list); `time` is the number of operations executed so far plus one.
The `cache` component evolves exactly as the un-instrumented `step`. -/
structure GState (K V : Type) where
  cache : Cache K V
  touch : K → Nat
  time : Nat

variable {K V : Type} [DecidableEq K]

/-- Instrumented step: runs `step` on the cache and records the touch made
by a successful `Set` or a `Get` hit. -/
def gstep (s : GState K V) (op : Op K V) : GState K V :=
  match op with
  | .set now k v ttl =>
    match SetWithTTL s.cache now k v ttl with
    | .ok c2 => ⟨c2, Function.update s.touch k s.time, s.time + 1⟩
    | .error _ => ⟨s.cache, s.touch, s.time + 1⟩
  | .get now k =>
    match (Get s.cache now k).1 with
    | some _ => ⟨(Get s.cache now k).2, Function.update s.touch k s.time, s.time + 1⟩
    | none => ⟨(Get s.cache now k).2, s.touch, s.time + 1⟩
  | .del k => ⟨(Delete s.cache k).2, s.touch, s.time + 1⟩
  | .len now => ⟨(Len s.cache now).2, s.touch, s.time + 1⟩

/-- Instrumented run from the empty cache. -/
def grun (capacity : Nat) (defaultTTL : Int) (ops : List (Op K V)) : GState K V :=
  ops.foldl gstep ⟨empty K V capacity defaultTTL, fun _ => 0, 1⟩

/-- The step index of the last `Set`/`Get` touch of each key over an
operation sequence (keys never touched map to 0). -/
def lastTouch (capacity : Nat) (defaultTTL : Int) (ops : List (Op K V)) : K → Nat :=
  (grun capacity defaultTTL ops).touch

/-- The invariant tying the recency list to the touch instrumentation:
the list is strictly ordered by decreasing last touch (front = most recently
touched), and every resident touch is in the past. -/
def Inv (s : GState K V) : Prop :=
  s.cache.order.Pairwise (fun a b => s.touch b.key < s.touch a.key) ∧
  ∀ e ∈ s.cache.order, s.touch e.key < s.time

end Lru

/-! ### Generic list helpers

Shared facts about the `find?`/`eraseP`-by-key pattern every implementation
uses for its map-plus-list structure. -/

theorem eraseKeyEqFilter {α β : Type} [DecidableEq β] (key : α → β) (k : β)
    (l : List α) (hnd : (l.map key).Nodup) :
    l.eraseP (fun e => decide (key e = k)) = l.filter (fun e => !decide (key e = k)) := by
  induction l with
  | nil => rfl
  | cons e rest ih =>
    simp only [List.map_cons, List.nodup_cons] at hnd
    by_cases hk : key e = k
    · rw [List.eraseP_cons_of_pos (by simp [hk]), List.filter_cons_of_neg (by simp [hk])]
      have : ∀ a ∈ rest, (!decide (key a = k)) = true := by
        intro a ha
        have : key a ≠ k := by
          intro hak
          exact hnd.1 (by rw [hk, ← hak]; exact List.mem_map_of_mem key ha)
        simp [this]
      exact (List.filter_eq_self.mpr this).symm
    · rw [List.eraseP_cons_of_neg (by simp [hk]), List.filter_cons_of_pos (by simp [hk])]
      rw [ih hnd.2]

theorem findKeyEqNone {α β : Type} [DecidableEq β] (key : α → β) (k : β) (l : List α) :
    l.find? (fun e => decide (key e = k)) = none ↔ ∀ e ∈ l, key e ≠ k := by
  rw [List.find?_eq_none]
  constructor
  · intro h e he
    have := h e he
    simpa using this
  · intro h e he
    simpa using h e he

theorem pairwiseKeyNodup {α β : Type} (key : α → β) (f : β → Nat) (l : List α)
    (hp : l.Pairwise (fun a b => f (key b) < f (key a))) : (l.map key).Nodup := by
  have hne : l.Pairwise fun a b => key a ≠ key b := by
    refine hp.imp ?_
    intro a b h heq
    rw [heq] at h
    omega
  exact List.pairwise_map.mpr hne

theorem pairwiseGetLastMin {α : Type} (R : α → α → Prop) (l : List α)
    (hp : l.Pairwise R) (h : l ≠ []) :
    ∀ a ∈ l.dropLast, R a (l.getLast h) := by
  have hsplit := List.dropLast_append_getLast h
  rw [← hsplit] at hp
  rcases List.pairwise_append.mp hp with ⟨-, -, hrel⟩
  intro a ha
  exact hrel a ha (l.getLast h) (List.mem_singleton_self _)

/-! ### Canonical implementation: structural lemmas -/

namespace Lru

set_option linter.unusedSectionVars false

variable {K V : Type} [DecidableEq K]

theorem sweepFromBack_eq_filter (now : Int) (l : List (Entry K V)) :
    sweepFromBack now l = l.filter (fun e => !isExpired e now) := by
  induction l with
  | nil => rfl
  | cons e rest ih =>
    simp only [sweepFromBack, List.filter_cons]
    cases h : isExpired e now <;> simp [h, ih]

theorem removeExpiredLocked_eq_filter (now : Int) (l : List (Entry K V)) :
    removeExpiredLocked now l = l.filter (fun e => !isExpired e now) := by
  simp [removeExpiredLocked, sweepFromBack_eq_filter, List.filter_reverse]

theorem enforceCapacityLocked_sublist (cap : Nat) (l : List (Entry K V)) :
    (enforceCapacityLocked cap l).Sublist l := by
  unfold enforceCapacityLocked
  split
  · exact (enforceCapacityLocked_sublist cap l.dropLast).trans (List.dropLast_sublist l)
  · exact List.Sublist.refl l
termination_by l.length
decreasing_by simp only [List.length_dropLast]; omega

theorem enforceCapacityLocked_length_le (cap : Nat) (l : List (Entry K V)) :
    (enforceCapacityLocked cap l).length ≤ cap := by
  unfold enforceCapacityLocked
  split
  · exact enforceCapacityLocked_length_le cap l.dropLast
  · omega
termination_by l.length
decreasing_by simp only [List.length_dropLast]; omega

theorem enforceCapacityLocked_eq_dropLast (cap : Nat) (l : List (Entry K V))
    (h : l.length = cap + 1) :
    enforceCapacityLocked cap l = l.dropLast := by
  rw [enforceCapacityLocked, if_pos (by omega)]
  rw [enforceCapacityLocked, if_neg (by simp only [List.length_dropLast]; omega)]

theorem enforceCapacityLocked_of_le (cap : Nat) (l : List (Entry K V))
    (h : l.length ≤ cap) :
    enforceCapacityLocked cap l = l := by
  rw [enforceCapacityLocked, if_neg (by omega)]

/-- Closed form of the eviction loop, used to evaluate concrete states:
dropping from the back until the size bound holds keeps the first
`cap` entries. -/
theorem enforceCapacityLocked_eq_take (cap : Nat) (l : List (Entry K V)) :
    enforceCapacityLocked cap l = if l.length ≤ cap then l else l.take cap := by
  unfold enforceCapacityLocked
  split
  · rename_i hgt
    rw [enforceCapacityLocked_eq_take cap l.dropLast]
    by_cases h2 : l.dropLast.length ≤ cap
    · rw [if_pos h2, if_neg (by omega)]
      have hlen : l.length = cap + 1 := by
        have := List.length_dropLast l
        omega
      rw [List.dropLast_eq_take, hlen]
      simp
    · rw [if_neg h2, if_neg (by omega)]
      rw [List.dropLast_eq_take, List.take_take]
      have hmin : min cap (l.length - 1) = cap := by
        rw [List.length_dropLast] at h2
        omega
      rw [hmin]
  · rename_i hle
    rw [if_pos (by omega)]
termination_by l.length
decreasing_by simp only [List.length_dropLast]; omega

theorem removeKey_eq_filter (l : List (Entry K V)) (k : K)
    (hnd : (l.map Entry.key).Nodup) :
    removeKey l k = l.filter (fun e => !decide (e.key = k)) :=
  eraseKeyEqFilter Entry.key k l hnd

theorem mem_removeKey (l : List (Entry K V)) (k : K)
    (hnd : (l.map Entry.key).Nodup) (e : Entry K V) (he : e ∈ removeKey l k) :
    e ∈ l ∧ e.key ≠ k := by
  rw [removeKey_eq_filter l k hnd] at he
  have := List.mem_filter.mp he
  refine ⟨this.1, ?_⟩
  simpa using this.2

/-- A sublist of a recency-invariant list still satisfies the invariant
(with the step counter advanced). -/
theorem invOfSublist (f : K → Nat) (n : Nat) (l l2 : List (Entry K V))
    (hsub : l2.Sublist l)
    (hp : l.Pairwise (fun a b => f b.key < f a.key))
    (hb : ∀ e ∈ l, f e.key < n) :
    l2.Pairwise (fun a b => f b.key < f a.key) ∧ ∀ e ∈ l2, f e.key < n + 1 := by
  refine ⟨hp.sublist hsub, ?_⟩
  intro e he
  have := hb e (hsub.mem he)
  omega

/-- Pushing an entry with key `k` at the front of a list of entries whose
keys all differ from `k`, while recording the touch of `k` at the current
step, preserves the invariant. -/
theorem invConsUpdate (f : K → Nat) (n : Nat) (k : K) (e' : Entry K V)
    (hk : e'.key = k) (l rest : List (Entry K V))
    (hsub : rest.Sublist l)
    (hrest : ∀ e ∈ rest, e.key ≠ k)
    (hp : l.Pairwise (fun a b => f b.key < f a.key))
    (hb : ∀ e ∈ l, f e.key < n) :
    (e' :: rest).Pairwise
      (fun a b => Function.update f k n b.key < Function.update f k n a.key) ∧
    ∀ e ∈ e' :: rest, Function.update f k n e.key < n + 1 := by
  have hup : ∀ e ∈ rest, Function.update f k n e.key = f e.key := by
    intro e he
    exact Function.update_noteq (hrest e he) n f
  constructor
  · rw [List.pairwise_cons]
    constructor
    · intro b hbmem
      rw [hup b hbmem, hk, Function.update_same]
      exact hb b (hsub.mem hbmem)
    · refine (hp.sublist hsub).imp_of_mem ?_
      intro a b ha hbm hab
      rw [hup a ha, hup b hbm]
      exact hab
  · intro e he
    rcases List.mem_cons.mp he with rfl | he
    · rw [hk, Function.update_same]
      omega
    · rw [hup e he]
      have := hb e (hsub.mem he)
      omega

/-- One instrumented step preserves the recency invariant. -/
theorem gstep_inv (s : GState K V) (op : Op K V) (h : Inv s) : Inv (gstep s op) := by
  obtain ⟨hp, hb⟩ := h
  have hnd : (s.cache.order.map Entry.key).Nodup :=
    pairwiseKeyNodup Entry.key s.touch s.cache.order hp
  cases op with
  | set now k v ttl =>
    simp only [gstep]
    by_cases httl : ttl < 0
    · rw [SetWithTTL, if_pos httl]
      exact ⟨hp, fun e he => Nat.lt_succ_of_lt (hb e he)⟩
    · rw [SetWithTTL, if_neg httl]
      simp only
      cases hfind : findEntry? s.cache.order k with
      | some ent =>
        simp only [hfind]
        have hkey : ent.key = k := by
          have := List.find?_some hfind
          simpa using this
        have h2 := invConsUpdate s.touch s.time k
          ⟨ent.key, v,
            if (if ttl = 0 then s.cache.defaultTTL else ttl) > 0 then
              some (now + if ttl = 0 then s.cache.defaultTTL else ttl) else none⟩
          hkey s.cache.order (removeKey s.cache.order k)
          (List.eraseP_sublist _) (fun e he => (mem_removeKey _ k hnd e he).2) hp hb
        exact ⟨h2.1, h2.2⟩
      | none =>
        simp only [hfind]
        have hfresh : ∀ e ∈ s.cache.order, e.key ≠ k := by
          have := (findKeyEqNone Entry.key k s.cache.order).mp hfind
          exact this
        have hcons := invConsUpdate s.touch s.time k ⟨k, v,
            if (if ttl = 0 then s.cache.defaultTTL else ttl) > 0 then
              some (now + if ttl = 0 then s.cache.defaultTTL else ttl) else none⟩
          rfl s.cache.order s.cache.order (List.Sublist.refl _) hfresh hp hb
        refine ⟨hcons.1.sublist (enforceCapacityLocked_sublist _ _), ?_⟩
        intro e he
        exact hcons.2 e ((enforceCapacityLocked_sublist _ _).mem he)
  | get now k =>
    simp only [gstep]
    cases hfind : findEntry? s.cache.order k with
    | none =>
      simp only [Get, hfind]
      exact ⟨hp, fun e he => Nat.lt_succ_of_lt (hb e he)⟩
    | some ent =>
      have hkey : ent.key = k := by
        have := List.find?_some hfind
        simpa using this
      by_cases hex : isExpired ent now
      · simp only [Get, hfind, if_pos hex]
        exact invOfSublist s.touch s.time s.cache.order _ (List.eraseP_sublist _) hp hb
      · simp only [Get, hfind, if_neg hex]
        have h2 := invConsUpdate s.touch s.time k ent hkey s.cache.order
          (removeKey s.cache.order k)
          (List.eraseP_sublist _) (fun e he => (mem_removeKey _ k hnd e he).2) hp hb
        exact ⟨h2.1, h2.2⟩
  | del k =>
    simp only [gstep, Delete]
    cases hfind : findEntry? s.cache.order k with
    | none =>
      simp only [hfind]
      exact ⟨hp, fun e he => Nat.lt_succ_of_lt (hb e he)⟩
    | some ent =>
      simp only [hfind]
      exact invOfSublist s.touch s.time s.cache.order _ (List.eraseP_sublist _) hp hb
  | len now =>
    simp only [gstep, Len]
    rw [removeExpiredLocked_eq_filter]
    exact invOfSublist s.touch s.time s.cache.order _ (List.filter_sublist _) hp hb

/-- The invariant holds in every reachable instrumented state. -/
theorem grun_inv (capacity : Nat) (defaultTTL : Int) (ops : List (Op K V)) :
    Inv (grun capacity defaultTTL ops) := by
  suffices h : ∀ s : GState K V, Inv s → Inv (ops.foldl gstep s) by
    refine h _ ?_
    exact ⟨List.Pairwise.nil, by intro e he; simp [empty] at he⟩
  induction ops with
  | nil => intro s hs; exact hs
  | cons op rest ih =>
    intro s hs
    exact ih _ (gstep_inv s op hs)

/-- The instrumentation does not change the cache itself. -/
theorem grun_cache (capacity : Nat) (defaultTTL : Int) (ops : List (Op K V)) :
    (grun capacity defaultTTL ops).cache = run capacity defaultTTL ops := by
  suffices h : ∀ s : GState K V, (ops.foldl gstep s).cache = ops.foldl step s.cache by
    exact h _
  induction ops with
  | nil => intro s; rfl
  | cons op rest ih =>
    intro s
    rw [List.foldl_cons, List.foldl_cons, ih]
    congr 1
    cases op with
    | set now k v ttl =>
      simp only [gstep, step]
      cases SetWithTTL s.cache now k v ttl <;> rfl
    | get now k =>
      simp only [gstep, step]
      cases (Get s.cache now k).1 <;> rfl
    | del k => rfl
    | len now => rfl

/-- Every operation leaves the configured capacity unchanged. -/
theorem step_capacity (c : Cache K V) (op : Op K V) : (step c op).capacity = c.capacity := by
  cases op with
  | set now k v ttl =>
    simp only [step]
    cases hE : SetWithTTL c now k v ttl with
    | error e => rfl
    | ok c2 =>
      rw [SetWithTTL] at hE
      by_cases httl : ttl < 0
      · rw [if_pos httl] at hE
        cases hE
      · rw [if_neg httl] at hE
        simp only at hE
        cases hfind : findEntry? c.order k <;> rw [hfind] at hE <;>
          cases hE <;> rfl
  | get now k =>
    cases hfind : findEntry? c.order k with
    | none => simp only [step, Get, hfind]
    | some ent =>
      by_cases hex : isExpired ent now
      · simp only [step, Get, hfind, if_pos hex]
      · simp only [step, Get, hfind, if_neg hex]
  | del k =>
    cases hfind : findEntry? c.order k <;> simp only [step, Delete, hfind]
  | len now => rfl

/-- Every operation keeps the store size within the capacity. -/
theorem step_length_le (c : Cache K V) (op : Op K V) (h : c.order.length ≤ c.capacity) :
    (step c op).order.length ≤ c.capacity := by
  cases op with
  | set now k v ttl =>
    simp only [step]
    cases hE : SetWithTTL c now k v ttl with
    | error e => exact h
    | ok c2 =>
      rw [SetWithTTL] at hE
      by_cases httl : ttl < 0
      · rw [if_pos httl] at hE
        cases hE
      · rw [if_neg httl] at hE
        simp only at hE
        cases hfind : findEntry? c.order k <;> rw [hfind] at hE
        · cases hE
          exact enforceCapacityLocked_length_le _ _
        · cases hE
          rename_i ent
          have hmem := List.mem_of_find?_eq_some hfind
          have hp := List.find?_some hfind
          simp only [List.length_cons, removeKey]
          rw [List.length_eraseP_of_mem hmem hp]
          have : 1 ≤ c.order.length := List.length_pos.mpr (List.ne_nil_of_mem hmem)
          omega
  | get now k =>
    cases hfind : findEntry? c.order k with
    | none => simpa only [step, Get, hfind] using h
    | some ent =>
      have hmem := List.mem_of_find?_eq_some hfind
      have hp := List.find?_some hfind
      by_cases hex : isExpired ent now
      · simp only [step, Get, hfind, if_pos hex, removeKey]
        have := (List.eraseP_sublist (p := fun e => decide (e.key = k)) c.order).length_le
        omega
      · simp only [step, Get, hfind, if_neg hex, removeKey, List.length_cons]
        rw [List.length_eraseP_of_mem hmem hp]
        have : 1 ≤ c.order.length := List.length_pos.mpr (List.ne_nil_of_mem hmem)
        omega
  | del k =>
    cases hfind : findEntry? c.order k with
    | none => simpa only [step, Delete, hfind] using h
    | some ent =>
      simp only [step, Delete, hfind, removeKey]
      have := (List.eraseP_sublist (p := fun e => decide (e.key = k)) c.order).length_le
      omega
  | len now =>
    simp only [step, Len, removeExpiredLocked_eq_filter]
    have := List.length_filter_le (fun e => !isExpired e now) c.order
    omega

/-- The capacity of a run is the constructed capacity. -/
theorem run_capacity (capacity : Nat) (defaultTTL : Int) (ops : List (Op K V)) :
    (run capacity defaultTTL ops).capacity = capacity := by
  suffices hgen : ∀ c : Cache K V, (ops.foldl step c).capacity = c.capacity by
    exact hgen _
  induction ops with
  | nil => intro c; rfl
  | cons op rest ih =>
    intro c
    rw [List.foldl_cons, ih, step_capacity]

/-- Every reachable state of the canonical cache respects its capacity. -/
theorem run_length_le (capacity : Nat) (defaultTTL : Int) (ops : List (Op K V)) :
    (run capacity defaultTTL ops).order.length ≤ capacity := by
  suffices hgen : ∀ c : Cache K V, c.order.length ≤ c.capacity →
      (ops.foldl step c).order.length ≤ (ops.foldl step c).capacity by
    have := hgen (empty K V capacity defaultTTL) (by simp [empty])
    rw [run]
    have hc := run_capacity capacity defaultTTL ops
    rw [run] at hc
    omega
  induction ops with
  | nil => intro c hc; exact hc
  | cons op rest ih =>
    intro c hc
    rw [List.foldl_cons]
    refine ih _ ?_
    rw [step_capacity]
    exact step_length_le c op hc

end Lru

namespace Agent14

/-- The background sweep is a filter: exactly the entries whose expiry has
strictly passed are removed, wherever they sit in the list. -/
theorem a14SweepFromBack_eq_filter {V : Type} (now : Int) (l : List (Entry V)) :
    sweepFromBack now l = l.filter (fun e => !sweepExpired e now) := by
  induction l with
  | nil => rfl
  | cons e rest ih =>
    simp only [sweepFromBack, List.filter_cons]
    cases h : sweepExpired e now <;> simp [h, ih]

theorem removeExpired_eq_filter {V : Type} (c : Cache V) (now : Int) :
    (removeExpired c now).order = c.order.filter (fun e => !sweepExpired e now) := by
  simp [removeExpired, a14SweepFromBack_eq_filter, List.filter_reverse]

/-- After a `Set`, the entry for the key sits at the front of the list with
the freshly computed expiry (capacity at least 1 rules out the degenerate
immediate self-eviction). -/
theorem a14Set_head {V : Type} (c : Cache V) (now : Int) (k : String) (v : V) (ttl : Int)
    (hcap : 1 ≤ c.capacity) :
    ∃ rest, (Set c now k v ttl).order
      = (⟨k, v, if ttl > 0 then some (now + ttl) else none⟩ : Entry V) :: rest := by
  rw [Set]
  cases hfind : findEntry? c.order k with
  | some ent =>
    have hkey : ent.key = k := by
      have := List.find?_some hfind
      simpa using this
    refine ⟨removeKey c.order k, ?_⟩
    simp [hkey]
  | none =>
    simp only
    cases horder : c.order with
    | nil =>
      rw [if_neg (by simp; omega)]
      exact ⟨[], rfl⟩
    | cons e2 rest2 =>
      by_cases hlen : ((⟨k, v, if ttl > 0 then some (now + ttl) else none⟩ :: e2 :: rest2 : List (Entry V)).length : Int) > c.capacity
      · rw [if_pos hlen]
        rw [List.dropLast_cons_of_ne_nil (by simp)]
        exact ⟨_, rfl⟩
      · rw [if_neg hlen]
        exact ⟨_, rfl⟩

end Agent14

namespace Agent11

set_option linter.unusedSectionVars false

variable {K V : Type} [DecidableEq K]

theorem purgeFromBack_eq_filter (now : Int) (l : List (Entry K V)) :
    purgeFromBack now l = l.filter (fun e => !isExpired e now) := by
  induction l with
  | nil => rfl
  | cons e rest ih =>
    simp only [purgeFromBack, List.filter_cons]
    cases h : isExpired e now <;> simp [h, ih]

theorem purgeExpiredLocked_eq_filter (now : Int) (l : List (Entry K V)) :
    purgeExpiredLocked now l = l.filter (fun e => !isExpired e now) := by
  simp [purgeExpiredLocked, purgeFromBack_eq_filter, List.filter_reverse]

/-- The make-room loop ends strictly below the (positive) capacity. -/
theorem evictWhileFull_length_lt (cap : Nat) (hcap : 1 ≤ cap) (l : List (Entry K V)) :
    (evictWhileFull cap l).length < cap := by
  unfold evictWhileFull
  split
  · exact evictWhileFull_length_lt cap hcap l.dropLast
  · rename_i h
    omega
termination_by l.length
decreasing_by
  rename_i h
  simp only [List.length_dropLast]
  omega

end Agent11

namespace Agent1

/-- After a `Set`, the entry sits at the front with `expiresAt = now + ttl`,
whatever the sign of the TTL. -/
theorem a1Set_head {V : Type} (c : Cache V) (now : Int) (k : String) (v : V) (ttl : Int)
    (hcap : 1 ≤ c.capacity) :
    ∃ rest, (Set c now k v ttl).evictList = (⟨k, v, now + ttl⟩ : Entry V) :: rest := by
  rw [Set]
  cases hfind : findEntry? c.evictList k with
  | some ent =>
    have hkey : ent.key = k := by
      have := List.find?_some hfind
      simpa using this
    refine ⟨removeKey c.evictList k, ?_⟩
    simp [hkey]
  | none =>
    simp only
    cases horder : c.evictList with
    | nil =>
      rw [if_neg (by simp; omega)]
      exact ⟨[], rfl⟩
    | cons e2 rest2 =>
      by_cases hlen : (((⟨k, v, now + ttl⟩ : Entry V) :: e2 :: rest2 : List (Entry V)).length : Int) > c.capacity
      · rw [if_pos hlen]
        rw [List.dropLast_cons_of_ne_nil (by simp)]
        exact ⟨_, rfl⟩
      · rw [if_neg hlen]
        exact ⟨_, rfl⟩

end Agent1

namespace Agent3

set_option linter.unusedSectionVars false

variable {K V : Type} [DecidableEq K]

/-- After an `Add`, the entry sits at the front with
`expiresAt = now + ttl`, whatever the sign of the TTL. -/
theorem Add_head (c : Cache K V) (now : Int) (k : K) (v : V) (ttl : Int)
    (hcap : 0 ≤ c.maxEntries) :
    ∃ rest, (Add c now k v ttl).ll = (⟨k, v, now + ttl⟩ : Entry K V) :: rest := by
  rw [Add]
  cases hfind : findEntry? c.ll k with
  | some ent =>
    have hkey : ent.key = k := by
      have := List.find?_some hfind
      simpa using this
    refine ⟨removeKey c.ll k, ?_⟩
    simp [hkey]
  | none =>
    simp only
    cases horder : c.ll with
    | nil =>
      rw [if_neg (by simp; omega)]
      exact ⟨[], rfl⟩
    | cons e2 rest2 =>
      by_cases hlen : c.maxEntries ≠ 0 ∧
          (((⟨k, v, now + ttl⟩ : Entry K V) :: e2 :: rest2 : List (Entry K V)).length : Int) > c.maxEntries
      · rw [if_pos hlen]
        rw [List.dropLast_cons_of_ne_nil (by simp)]
        exact ⟨_, rfl⟩
      · rw [if_neg hlen]
        exact ⟨_, rfl⟩

end Agent3


/-! ## Claims -/

/-- C3 (counterexample): in `agent13`, at a clock reading exactly equal to
the (set) expiration instant, `Get` still returns the value — the claim's
"at `expiresAt` the entry is already expired" is false for that cited code. -/
theorem c3_strict_after_boundary_counterexample :
    (Agent13.Set (Agent13.New Nat 2) 0 "x" 9 5).evictList.map Agent13.Entry.expiration
      = [some 5] ∧
    (Agent13.Get (Agent13.Set (Agent13.New Nat 2) 0 "x" 9 5) 5 "x").1 = some 9 := by
  exact ⟨rfl, rfl⟩

/-- C3 (amended): the canonical `isExpired` and `agent14`'s `Get` classify an
entry with a set expiry as expired exactly when `now ≥ expiresAt` (so the
boundary instant is already expired), while `agent13`'s `Get` uses the strict
test `now > expiration` and still returns the entry at the boundary. -/
theorem c3_expiry_boundary_amended
    (c : Lru.Cache Nat Nat) (now t : Int) (k : Nat) (ent : Lru.Entry Nat Nat)
    (hfind : Lru.findEntry? c.order k = some ent) (hexp : ent.expiresAt = some t)
    (c14 : Agent14.Cache Nat) (k14 : String) (e14 : Agent14.Entry Nat)
    (hf14 : Agent14.findEntry? c14.order k14 = some e14) (he14 : e14.expiresAt = some t)
    (c13 : Agent13.Cache Nat) (k13 : String) (e13 : Agent13.Entry Nat)
    (hf13 : Agent13.findEntry? c13.evictList k13 = some e13) (he13 : e13.expiration = some t) :
    (Lru.isExpired ent now = true ↔ now ≥ t) ∧
    ((Lru.Get c now k).1 = none ↔ now ≥ t) ∧
    ((Agent14.Get c14 now k14).1 = none ↔ now ≥ t) ∧
    ((Agent13.Get c13 now k13).1 = none ↔ now > t) := by
  refine ⟨?_, ?_, ?_, ?_⟩
  · by_cases h : t ≤ now <;> simp [Lru.isExpired, hexp, h, ge_iff_le]
  · by_cases h : t ≤ now <;>
      simp [Lru.Get, hfind, Lru.isExpired, hexp, h, ge_iff_le]
  · by_cases h : now < t <;> simp [Agent14.Get, hf14, he14, h, ge_iff_le] <;> omega
  · by_cases h : now > t <;> simp [Agent13.Get, hf13, he13, h]

/-- C3 witness: a capacity-2 cache holding one entry with expiry 5, queried
at the boundary instant 5. -/
theorem c3_expiry_boundary_amended_witness :
    Lru.findEntry? (⟨2, [⟨1, 9, some 5⟩], 0⟩ : Lru.Cache Nat Nat).order 1
        = some ⟨1, 9, some 5⟩ ∧
    Agent14.findEntry? (⟨2, [⟨"x", 9, some 5⟩]⟩ : Agent14.Cache Nat).order "x"
        = some ⟨"x", 9, some 5⟩ ∧
    Agent13.findEntry? (⟨2, [⟨"x", 9, some 5⟩]⟩ : Agent13.Cache Nat).evictList "x"
        = some ⟨"x", 9, some 5⟩ ∧
    ((Lru.isExpired (⟨1, 9, some 5⟩ : Lru.Entry Nat Nat) 5 = true ↔ (5:Int) ≥ 5) ∧
     ((Lru.Get (⟨2, [⟨1, 9, some 5⟩], 0⟩ : Lru.Cache Nat Nat) 5 1).1 = none ↔ (5:Int) ≥ 5) ∧
     ((Agent14.Get (⟨2, [⟨"x", 9, some 5⟩]⟩ : Agent14.Cache Nat) 5 "x").1 = none ↔ (5:Int) ≥ 5) ∧
     ((Agent13.Get (⟨2, [⟨"x", 9, some 5⟩]⟩ : Agent13.Cache Nat) 5 "x").1 = none ↔ (5:Int) > 5)) :=
  ⟨by decide, by decide, by decide,
    c3_expiry_boundary_amended ⟨2, [⟨1, 9, some 5⟩], 0⟩ 5 5 1 ⟨1, 9, some 5⟩
      (by decide) (by decide) ⟨2, [⟨"x", 9, some 5⟩]⟩ "x" ⟨"x", 9, some 5⟩
      (by decide) (by decide) ⟨2, [⟨"x", 9, some 5⟩]⟩ "x" ⟨"x", 9, some 5⟩
      (by decide) (by decide)⟩

/-- C4 (counterexample): in `agent1` and `agent3` a `Set`/`Add` with TTL 0
(no default TTL exists in those implementations) stores `expiresAt = now`,
and a `Get` one tick later already reports not-found — the entry does
expire. -/
theorem c4_zero_ttl_expires_counterexample :
    (Agent1.Get (Agent1.Set (Agent1.New Nat 2) 10 "k" 7 0) 11 "k").1 = none ∧
    (Agent3.Get (Agent3.Add (Agent3.New String Nat 2) 10 "k" 7 0) 11 "k").1 = none := by
  exact ⟨rfl, rfl⟩

/-- C4 (amended): in `agent14` (as in the other implementations that guard
with `ttl > 0`), a TTL of zero or negative leaves the expiry unset, and the
stored entry is returned by `Get` at every clock reading, surviving every
sweep; in `agent1` and `agent3`, `expiresAt = now + ttl` is stored
unconditionally, so the same entry is gone from `Get` at every instant
strictly after `now + ttl`. -/
theorem c4_ttl_semantics_amended
    (c14 : Agent14.Cache Nat) (now : Int) (k : String) (v : Nat) (ttl : Int)
    (httl : ttl ≤ 0) (hcap : 1 ≤ c14.capacity)
    (c1 : Agent1.Cache Nat) (hcap1 : 1 ≤ c1.capacity)
    (c3 : Agent3.Cache String Nat) (hcap3 : 0 ≤ c3.maxEntries)
    (now2 : Int) (hlate : now + ttl < now2) :
    (∀ m : Int, (Agent14.Get (Agent14.Set c14 now k v ttl) m k).1 = some v) ∧
    (∀ m m2 : Int,
      (Agent14.Get (Agent14.removeExpired (Agent14.Set c14 now k v ttl) m) m2 k).1 = some v) ∧
    (Agent1.Get (Agent1.Set c1 now k v ttl) now2 k).1 = none ∧
    (Agent3.Get (Agent3.Add c3 now k v ttl) now2 k).1 = none := by
  obtain ⟨rest, hhead⟩ := Agent14.a14Set_head c14 now k v ttl hcap
  have hnone : (if ttl > 0 then some (now + ttl) else none) = (none : Option Int) := by
    rw [if_neg (by omega)]
  rw [hnone] at hhead
  refine ⟨?_, ?_, ?_, ?_⟩
  · intro m
    simp [Agent14.Get, Agent14.findEntry?, hhead]
  · intro m m2
    have : (Agent14.removeExpired (Agent14.Set c14 now k v ttl) m).order
        = (⟨k, v, none⟩ : Agent14.Entry Nat) ::
          rest.filter (fun e => !Agent14.sweepExpired e m) := by
      rw [Agent14.removeExpired_eq_filter, hhead]
      simp [Agent14.sweepExpired]
    simp [Agent14.Get, Agent14.findEntry?, this]
  · obtain ⟨rest1, hhead1⟩ := Agent1.a1Set_head c1 now k v ttl hcap1
    simp [Agent1.Get, Agent1.findEntry?, hhead1, hlate]
  · obtain ⟨rest3, hhead3⟩ := Agent3.Add_head c3 now k v ttl hcap3
    simp [Agent3.Get, Agent3.findEntry?, hhead3, hlate]

/-- C4 witness: TTL 0 on empty caches of capacity 2, probed one tick after
`now + ttl`. -/
theorem c4_ttl_semantics_amended_witness :
    (0:Int) ≤ 0 ∧ 1 ≤ (Agent14.New Nat 2).capacity ∧ 1 ≤ (Agent1.New Nat 2).capacity ∧
    (0:Int) ≤ (Agent3.New String Nat 2).maxEntries ∧ (10:Int) + 0 < 11 ∧
    ((∀ m : Int, (Agent14.Get (Agent14.Set (Agent14.New Nat 2) 10 "k" 7 0) m "k").1 = some 7) ∧
     (∀ m m2 : Int,
       (Agent14.Get (Agent14.removeExpired (Agent14.Set (Agent14.New Nat 2) 10 "k" 7 0) m) m2 "k").1
         = some 7) ∧
     (Agent1.Get (Agent1.Set (Agent1.New Nat 2) 10 "k" 7 0) 11 "k").1 = none ∧
     (Agent3.Get (Agent3.Add (Agent3.New String Nat 2) 10 "k" 7 0) 11 "k").1 = none) :=
  ⟨by decide, by decide, by decide, by decide, by decide,
    c4_ttl_semantics_amended (Agent14.New Nat 2) 10 "k" 7 0 (by decide) (by decide)
      (Agent1.New Nat 2) (by decide) (Agent3.New String Nat 2) (by decide) 11 (by decide)⟩

/-- C5 (counterexample): in `agent14`, an entry stored with TTL 5 at time 0
is expired at time 10 — `Get` already reports not-found — yet `Len` still
returns 1 while the spec's live count is 0. -/
theorem c5_len_counts_expired_counterexample :
    Agent14.Len (Agent14.Set (Agent14.New Nat 2) 0 "k" 7 5) = 1 ∧
    Spec.liveCount
      ((Agent14.Set (Agent14.New Nat 2) 0 "k" 7 5).order.map Agent14.Entry.expiresAt) 10 = 0 ∧
    (Agent14.Get (Agent14.Set (Agent14.New Nat 2) 0 "k" 7 5) 10 "k").1 = none := by
  exact ⟨rfl, rfl, rfl⟩

/-- C5 (amended): the canonical `Len` purges and returns exactly the spec's
count of resident non-expired entries, at every state and instant; `agent14`'s
`Len` instead returns the raw resident count, with no expiry reconciliation. -/
theorem c5_len_amended (c : Lru.Cache Nat Nat) (now : Int) (c14 : Agent14.Cache Nat) :
    (Lru.Len c now).1 = Spec.liveCount (c.order.map Lru.Entry.expiresAt) now ∧
    Agent14.Len c14 = c14.order.length := by
  constructor
  · simp only [Lru.Len, Lru.removeExpiredLocked_eq_filter, Spec.liveCount]
    rw [List.filter_map, List.length_map]
    refine congrArg List.length (List.filter_congr ?_)
    intro e he
    cases hx : e.expiresAt <;>
      simp [Lru.isExpired, Spec.expired, hx, ge_iff_le, Function.comp]
  · rfl

/-- C6 (counterexample): `agent14`'s constructor does not fail on capacity 0;
it silently clamps the capacity to the default 128 and returns a cache that
stores and serves entries. -/
theorem c6_clamped_capacity_counterexample :
    (Agent14.New Nat 0).capacity = 128 ∧
    (Agent14.Get (Agent14.Set (Agent14.New Nat 0) 0 "k" 7 0) 0 "k").1 = some 7 := by
  exact ⟨rfl, rfl⟩

/-- C6 (amended): the canonical `New` rejects every non-positive capacity
with `ErrInvalidCapacity` and yields no cache; `agent14`, `agent13` and
`agent1` never fail — they silently clamp a non-positive capacity to their
defaults 128, 100 and 1 respectively. -/
theorem c6_invalid_capacity_amended (cap dttl : Int) (h : cap ≤ 0) :
    Lru.New Nat Nat cap dttl = Except.error Lru.Err.ErrInvalidCapacity ∧
    (Agent14.New Nat cap).capacity = 128 ∧
    (Agent13.New Nat cap).capacity = 100 ∧
    (Agent1.New Nat cap).capacity = 1 := by
  refine ⟨?_, ?_, ?_, ?_⟩ <;> simp [Lru.New, Agent14.New, Agent13.New, Agent1.New, h]

/-- C6 witness: capacity 0. -/
theorem c6_invalid_capacity_amended_witness :
    (0:Int) ≤ 0 ∧
    (Lru.New Nat Nat 0 0 = Except.error Lru.Err.ErrInvalidCapacity ∧
     (Agent14.New Nat 0).capacity = 128 ∧
     (Agent13.New Nat 0).capacity = 100 ∧
     (Agent1.New Nat 0).capacity = 1) :=
  ⟨by decide, c6_invalid_capacity_amended 0 0 (by decide)⟩

/-- C7: the `cleanup` sweep of the second document in
`src/agent11/lru/cache.go` stops at the first non-expired entry seen from
the back.  With `Put("long", 1, ttl=100)` then `Put("short", 2, ttl=1)` at
time 0, the recency order is `[short, long]`; at the tick at time 50 the
entry `short` is expired (`50 > 1`) but sits in front of the live `long`,
so the sweep removes nothing — while the canonical `removeExpiredLocked`
and `agent14`'s `removeExpired` delete it in the same situation. -/
theorem c7_sweep_early_exit_divergence :
    ((Agent11B.cleanupTick
        (Agent11B.Put (Agent11B.Put ⟨2, []⟩ 0 "long" 1 100) 0 "short" 2 1) 50).l.map
        Agent11B.Entry.key = ["short", "long"]) ∧
    ((50:Int) > 1) ∧
    (Lru.removeExpiredLocked 50 [(⟨0, 2, some 1⟩ : Lru.Entry Nat Nat), ⟨1, 1, some 100⟩]
      = [⟨1, 1, some 100⟩]) ∧
    ((Agent14.removeExpired ⟨2, [⟨"short", 2, some 1⟩, ⟨"long", 1, some 100⟩]⟩ 50).order.map
        Agent14.Entry.key = ["long"]) := by
  exact ⟨rfl, by decide, rfl, rfl⟩

/-- C9 (counterexample): `agent14`'s `Close` runs `close(c.stopCh)` with no
guard; the first call succeeds, but the second closes an already-closed
channel, which panics in Go — calling `Close` twice is not safe there. -/
theorem c9_double_close_counterexample :
    Agent14.Close false = Except.ok true ∧
    Agent14.Close true = Except.error Lru.GoPanic.closeOfClosedChannel := by
  exact ⟨rfl, rfl⟩

/-- C9 (amended): in the canonical implementation and in `agent12`, `Close`
is guarded by `sync.Once`: from the constructed lifecycle state the first
call closes the stop channel and every later call is a panic-free no-op;
once the sweeper loop has stopped it fires no further sweeps.  In `agent14`,
a second `Close` panics. -/
theorem c9_close_idempotent_amended :
    (Lru.Close Lru.newLifecycle = Except.ok ⟨true, true⟩ ∧
     Lru.Close ⟨true, true⟩ = Except.ok ⟨true, true⟩) ∧
    (Agent12.Close Lru.newLifecycle = Except.ok ⟨true, true⟩ ∧
     Agent12.Close ⟨true, true⟩ = Except.ok ⟨true, true⟩) ∧
    (∀ evs : List Lru.SweeperEvent, Lru.sweepsFired false evs = 0) ∧
    Agent14.Close false = Except.ok true ∧
    Agent14.Close true = Except.error Lru.GoPanic.closeOfClosedChannel := by
  refine ⟨⟨rfl, rfl⟩, ⟨rfl, rfl⟩, ?_, rfl, rfl⟩
  intro evs
  induction evs with
  | nil => rfl
  | cons ev rest ih =>
    cases ev <;> simpa [Lru.sweepsFired, Lru.runCleanupStep] using ih

/-- C8: for a resident non-expired key, `Peek` (in `part_006` and in
`agent11`) returns the same `(value, found)` result as `Get` would, leaves
the cache — recency order included — unchanged, hence also the next
capacity-eviction victim, and is idempotent. -/
theorem c8_peek_never_promotes
    (c06 : Part006.Cache Nat Nat) (now : Int) (k06 : Nat) (e06 : Part006.Entry Nat Nat)
    (hf06 : Part006.findEntry? c06.list k06 = some e06)
    (hl06 : Part006.isExpired e06 now = false)
    (c11 : Agent11.Cache Nat Nat) (k11 : Nat) (e11 : Agent11.Entry Nat Nat)
    (hf11 : Agent11.findEntry? c11.evictionList k11 = some e11)
    (hl11 : Agent11.isExpired e11 now = false) :
    ((Part006.Peek c06 now k06).1 = (Part006.Get c06 now k06).1 ∧
     (Part006.Peek c06 now k06).2 = c06 ∧
     Part006.evictionVictim? (Part006.Peek c06 now k06).2 = Part006.evictionVictim? c06 ∧
     Part006.Peek (Part006.Peek c06 now k06).2 now k06 = Part006.Peek c06 now k06) ∧
    ((Agent11.Peek c11 now k11).1 = (Agent11.Get c11 now k11).1 ∧
     (Agent11.Peek c11 now k11).2 = c11 ∧
     Agent11.evictionVictim? (Agent11.Peek c11 now k11).2 = Agent11.evictionVictim? c11 ∧
     Agent11.Peek (Agent11.Peek c11 now k11).2 now k11 = Agent11.Peek c11 now k11) := by
  have h06 : Part006.Peek c06 now k06 = (some e06.value, c06) := by
    simp [Part006.Peek, hf06, hl06]
  have g06 : (Part006.Get c06 now k06).1 = some e06.value := by
    simp [Part006.Get, hf06, hl06]
  have h11 : Agent11.Peek c11 now k11 = (some e11.value, c11) := by
    simp [Agent11.Peek, hf11, hl11]
  have g11 : (Agent11.Get c11 now k11).1 = some e11.value := by
    simp [Agent11.Get, hf11, hl11]
  refine ⟨⟨?_, ?_, ?_, ?_⟩, ?_, ?_, ?_, ?_⟩ <;> simp [h06, g06, h11, g11]

/-- C8 witness: a two-entry cache with a live entry for key 1. -/
theorem c8_peek_never_promotes_witness :
    Part006.findEntry? (⟨2, [⟨1, 9, 50, 50⟩, ⟨2, 8, 0, 0⟩]⟩ : Part006.Cache Nat Nat).list 1
        = some ⟨1, 9, 50, 50⟩ ∧
    Part006.isExpired (⟨1, 9, 50, 50⟩ : Part006.Entry Nat Nat) 10 = false ∧
    Agent11.findEntry?
        (⟨2, [⟨1, 9, some 50⟩, ⟨2, 8, none⟩], 0⟩ : Agent11.Cache Nat Nat).evictionList 1
        = some ⟨1, 9, some 50⟩ ∧
    Agent11.isExpired (⟨1, 9, some 50⟩ : Agent11.Entry Nat Nat) 10 = false ∧
    (((Part006.Peek (⟨2, [⟨1, 9, 50, 50⟩, ⟨2, 8, 0, 0⟩]⟩ : Part006.Cache Nat Nat) 10 1).1
        = (Part006.Get (⟨2, [⟨1, 9, 50, 50⟩, ⟨2, 8, 0, 0⟩]⟩ : Part006.Cache Nat Nat) 10 1).1 ∧
      (Part006.Peek (⟨2, [⟨1, 9, 50, 50⟩, ⟨2, 8, 0, 0⟩]⟩ : Part006.Cache Nat Nat) 10 1).2
        = (⟨2, [⟨1, 9, 50, 50⟩, ⟨2, 8, 0, 0⟩]⟩ : Part006.Cache Nat Nat) ∧
      Part006.evictionVictim?
          (Part006.Peek (⟨2, [⟨1, 9, 50, 50⟩, ⟨2, 8, 0, 0⟩]⟩ : Part006.Cache Nat Nat) 10 1).2
        = Part006.evictionVictim? (⟨2, [⟨1, 9, 50, 50⟩, ⟨2, 8, 0, 0⟩]⟩ : Part006.Cache Nat Nat) ∧
      Part006.Peek
          (Part006.Peek (⟨2, [⟨1, 9, 50, 50⟩, ⟨2, 8, 0, 0⟩]⟩ : Part006.Cache Nat Nat) 10 1).2 10 1
        = Part006.Peek (⟨2, [⟨1, 9, 50, 50⟩, ⟨2, 8, 0, 0⟩]⟩ : Part006.Cache Nat Nat) 10 1) ∧
     ((Agent11.Peek (⟨2, [⟨1, 9, some 50⟩, ⟨2, 8, none⟩], 0⟩ : Agent11.Cache Nat Nat) 10 1).1
        = (Agent11.Get (⟨2, [⟨1, 9, some 50⟩, ⟨2, 8, none⟩], 0⟩ : Agent11.Cache Nat Nat) 10 1).1 ∧
      (Agent11.Peek (⟨2, [⟨1, 9, some 50⟩, ⟨2, 8, none⟩], 0⟩ : Agent11.Cache Nat Nat) 10 1).2
        = (⟨2, [⟨1, 9, some 50⟩, ⟨2, 8, none⟩], 0⟩ : Agent11.Cache Nat Nat) ∧
      Agent11.evictionVictim?
          (Agent11.Peek (⟨2, [⟨1, 9, some 50⟩, ⟨2, 8, none⟩], 0⟩ : Agent11.Cache Nat Nat) 10 1).2
        = Agent11.evictionVictim?
            (⟨2, [⟨1, 9, some 50⟩, ⟨2, 8, none⟩], 0⟩ : Agent11.Cache Nat Nat) ∧
      Agent11.Peek
          (Agent11.Peek (⟨2, [⟨1, 9, some 50⟩, ⟨2, 8, none⟩], 0⟩ : Agent11.Cache Nat Nat) 10 1).2
          10 1
        = Agent11.Peek (⟨2, [⟨1, 9, some 50⟩, ⟨2, 8, none⟩], 0⟩ : Agent11.Cache Nat Nat) 10 1)) :=
  ⟨by decide, by decide, by decide, by decide,
    c8_peek_never_promotes ⟨2, [⟨1, 9, 50, 50⟩, ⟨2, 8, 0, 0⟩]⟩ 10 1 ⟨1, 9, 50, 50⟩
      (by decide) (by decide) ⟨2, [⟨1, 9, some 50⟩, ⟨2, 8, none⟩], 0⟩ 1 ⟨1, 9, some 50⟩
      (by decide) (by decide)⟩

/-- C10: `Delete` never consults the clock: a key that is physically
resident but already expired is still removed with result `true` (in the
canonical implementation, in `part_006` and in `agent14`), even though the
same key is invisible to `Get` and excluded from the canonical `Len` at that
instant. -/
theorem c10_delete_ignores_expiration
    (c : Lru.Cache Nat Nat) (now : Int) (k : Nat) (ent : Lru.Entry Nat Nat)
    (hnd : (c.order.map Lru.Entry.key).Nodup)
    (hfind : Lru.findEntry? c.order k = some ent)
    (hexp : Lru.isExpired ent now = true)
    (c06 : Part006.Cache Nat Nat) (k06 : Nat) (e06 : Part006.Entry Nat Nat)
    (hf06 : Part006.findEntry? c06.list k06 = some e06)
    (c14 : Agent14.Cache Nat) (k14 : String) (e14 : Agent14.Entry Nat)
    (hf14 : Agent14.findEntry? c14.order k14 = some e14) :
    (Lru.Delete c k).1 = true ∧
    (Lru.Get c now k).1 = none ∧
    (∀ e ∈ (Lru.Len c now).2.order, e.key ≠ k) ∧
    (Lru.Len c now).1 < c.order.length ∧
    (Part006.Delete c06 k06).1 = true ∧
    (Agent14.Delete c14 k14).1 = true := by
  have hmem := List.mem_of_find?_eq_some hfind
  have hkey : ent.key = k := by
    have := List.find?_some hfind
    simpa using this
  refine ⟨?_, ?_, ?_, ?_, ?_, ?_⟩
  · simp [Lru.Delete, hfind]
  · simp [Lru.Get, hfind, hexp]
  · intro e he
    simp only [Lru.Len, Lru.removeExpiredLocked_eq_filter] at he
    have hef := List.mem_filter.mp he
    intro hek
    have : e = ent := List.inj_on_of_nodup_map hnd hef.1 hmem (by rw [hek, hkey])
    rw [this, hexp] at hef
    simpa using hef.2
  · simp only [Lru.Len, Lru.removeExpiredLocked_eq_filter]
    refine List.length_filter_lt_length_iff_exists.mpr ?_
    exact ⟨ent, hmem, by simp [hexp]⟩
  · simp [Part006.Delete, hf06]
  · simp [Agent14.Delete, hf14]

/-- C10 witness: a cache holding the single entry `(1, 9)` expired at
instant 10 (expiry 5). -/
theorem c10_delete_ignores_expiration_witness :
    ((⟨2, [⟨1, 9, some 5⟩], 0⟩ : Lru.Cache Nat Nat).order.map Lru.Entry.key).Nodup ∧
    Lru.findEntry? (⟨2, [⟨1, 9, some 5⟩], 0⟩ : Lru.Cache Nat Nat).order 1 = some ⟨1, 9, some 5⟩ ∧
    Lru.isExpired (⟨1, 9, some 5⟩ : Lru.Entry Nat Nat) 10 = true ∧
    Part006.findEntry? (⟨1, [⟨1, 9, 5, 5⟩]⟩ : Part006.Cache Nat Nat).list 1 = some ⟨1, 9, 5, 5⟩ ∧
    Agent14.findEntry? (⟨1, [⟨"x", 9, some 5⟩]⟩ : Agent14.Cache Nat).order "x"
        = some ⟨"x", 9, some 5⟩ ∧
    ((Lru.Delete (⟨2, [⟨1, 9, some 5⟩], 0⟩ : Lru.Cache Nat Nat) 1).1 = true ∧
     (Lru.Get (⟨2, [⟨1, 9, some 5⟩], 0⟩ : Lru.Cache Nat Nat) 10 1).1 = none ∧
     (∀ e ∈ (Lru.Len (⟨2, [⟨1, 9, some 5⟩], 0⟩ : Lru.Cache Nat Nat) 10).2.order, e.key ≠ 1) ∧
     (Lru.Len (⟨2, [⟨1, 9, some 5⟩], 0⟩ : Lru.Cache Nat Nat) 10).1
        < (⟨2, [⟨1, 9, some 5⟩], 0⟩ : Lru.Cache Nat Nat).order.length ∧
     (Part006.Delete (⟨1, [⟨1, 9, 5, 5⟩]⟩ : Part006.Cache Nat Nat) 1).1 = true ∧
     (Agent14.Delete (⟨1, [⟨"x", 9, some 5⟩]⟩ : Agent14.Cache Nat) "x").1 = true) :=
  ⟨by decide, by decide, by decide, by decide, by decide,
    c10_delete_ignores_expiration ⟨2, [⟨1, 9, some 5⟩], 0⟩ 10 1 ⟨1, 9, some 5⟩
      (by decide) (by decide) (by decide) ⟨1, [⟨1, 9, 5, 5⟩]⟩ 1 ⟨1, 9, 5, 5⟩ (by decide)
      ⟨1, [⟨"x", 9, some 5⟩]⟩ "x" ⟨"x", 9, some 5⟩ (by decide)⟩

/-- C2: the resident-entry count never exceeds the capacity.  For the
canonical implementation this holds after every operation sequence run from
a freshly constructed cache (in particular after every `Set` that inserts a
new key); for `agent11`'s `SetWithTTL` and `agent3`'s `Add` a single call
preserves the bound from any state already within a positive capacity. -/
theorem c2_capacity_never_exceeded
    (cap : Nat) (dttl : Int) (ops : List (Lru.Op Nat Nat))
    (c11 : Agent11.Cache Nat Nat) (now11 : Int) (k11 v11 : Nat) (ttl11 : Int)
    (hcap11 : 1 ≤ c11.capacity) (hlen11 : c11.evictionList.length ≤ c11.capacity)
    (c3 : Agent3.Cache String Nat) (now3 : Int) (k3 : String) (v3 : Nat) (ttl3 : Int)
    (hcap3 : 1 ≤ c3.maxEntries) (hlen3 : (c3.ll.length : Int) ≤ c3.maxEntries) :
    (Lru.run cap dttl ops).order.length ≤ cap ∧
    (Agent11.SetWithTTL c11 now11 k11 v11 ttl11).evictionList.length ≤ c11.capacity ∧
    ((Agent3.Add c3 now3 k3 v3 ttl3).ll.length : Int) ≤ c3.maxEntries := by
  refine ⟨Lru.run_length_le cap dttl ops, ?_, ?_⟩
  · rw [Agent11.SetWithTTL]
    have hpur : (Agent11.purgeExpiredLocked now11 c11.evictionList).length
        ≤ c11.capacity := by
      rw [Agent11.purgeExpiredLocked_eq_filter]
      have := List.length_filter_le (fun e => !Agent11.isExpired e now11) c11.evictionList
      omega
    cases hfind : Agent11.findEntry? (Agent11.purgeExpiredLocked now11 c11.evictionList) k11 with
    | some ent =>
      simp only
      have hmem := List.mem_of_find?_eq_some hfind
      have hp := List.find?_some hfind
      simp only [Agent11.removeKey, List.length_cons]
      rw [List.length_eraseP_of_mem hmem hp]
      have : 1 ≤ (Agent11.purgeExpiredLocked now11 c11.evictionList).length :=
        List.length_pos.mpr (List.ne_nil_of_mem hmem)
      omega
    | none =>
      simp only [List.length_cons]
      have := Agent11.evictWhileFull_length_lt c11.capacity hcap11
        (Agent11.purgeExpiredLocked now11 c11.evictionList)
      omega
  · rw [Agent3.Add]
    cases hfind : Agent3.findEntry? c3.ll k3 with
    | some ent =>
      simp only
      have hmem := List.mem_of_find?_eq_some hfind
      have hp := List.find?_some hfind
      simp only [Agent3.removeKey, List.length_cons]
      rw [List.length_eraseP_of_mem hmem hp]
      have h1 : 1 ≤ c3.ll.length := List.length_pos.mpr (List.ne_nil_of_mem hmem)
      push_cast
      omega
    | none =>
      simp only
      split
      · rename_i hover
        simp only [List.length_dropLast, List.length_cons]
        push_cast
        omega
      · rename_i hover
        simp only [List.length_cons] at hover ⊢
        push_cast at hover ⊢
        omega

/-- C2 witness: the concrete eviction scenario (three inserts into capacity
2) for the canonical cache, and single inserts into one-away-from-full
states for `agent11` and `agent3`. -/
theorem c2_capacity_never_exceeded_witness :
    1 ≤ (⟨2, [⟨5, 5, none⟩], 0⟩ : Agent11.Cache Nat Nat).capacity ∧
    (⟨2, [⟨5, 5, none⟩], 0⟩ : Agent11.Cache Nat Nat).evictionList.length
      ≤ (⟨2, [⟨5, 5, none⟩], 0⟩ : Agent11.Cache Nat Nat).capacity ∧
    (1:Int) ≤ (⟨2, [⟨"a", 5, 9⟩, ⟨"b", 6, 9⟩]⟩ : Agent3.Cache String Nat).maxEntries ∧
    (((⟨2, [⟨"a", 5, 9⟩, ⟨"b", 6, 9⟩]⟩ : Agent3.Cache String Nat).ll.length : Int)
      ≤ (⟨2, [⟨"a", 5, 9⟩, ⟨"b", 6, 9⟩]⟩ : Agent3.Cache String Nat).maxEntries) ∧
    ((Lru.run 2 0 [Lru.Op.set 0 0 1 0, Lru.Op.set 0 1 2 0,
        Lru.Op.set 0 2 3 0]).order.length ≤ 2 ∧
     (Agent11.SetWithTTL (⟨2, [⟨5, 5, none⟩], 0⟩ : Agent11.Cache Nat Nat)
        0 7 7 0).evictionList.length
        ≤ (⟨2, [⟨5, 5, none⟩], 0⟩ : Agent11.Cache Nat Nat).capacity ∧
     (((Agent3.Add (⟨2, [⟨"a", 5, 9⟩, ⟨"b", 6, 9⟩]⟩ : Agent3.Cache String Nat)
        0 "c" 7 0).ll.length : Int)
        ≤ (⟨2, [⟨"a", 5, 9⟩, ⟨"b", 6, 9⟩]⟩ : Agent3.Cache String Nat).maxEntries)) :=
  ⟨by decide, by decide, by decide, by decide,
    c2_capacity_never_exceeded 2 0
      [Lru.Op.set 0 0 1 0, Lru.Op.set 0 1 2 0, Lru.Op.set 0 2 3 0]
      ⟨2, [⟨5, 5, none⟩], 0⟩ 0 7 7 0 (by decide) (by decide)
      ⟨2, [⟨"a", 5, 9⟩, ⟨"b", 6, 9⟩]⟩ 0 "c" 7 0 (by decide) (by decide)⟩

/-- C1: in the canonical implementation, when a `Set` inserts a new key into
a full cache, the evicted entry is the one at the back of the recency list
(the keys after the insert are the new key followed by all previous keys
except the back one), and the back entry is the resident entry least
recently touched by a successful `Set` or a `Get` hit — over every operation
sequence run from a fresh cache.  The concrete scenario: capacity 2,
`Set(a,1)`, `Set(b,2)`, `Get(a)`, `Set(c,3)` (keys a=0, b=1, c=2) makes a
later `Get(b)` report not-found while `Get(a)` returns 1 and `Get(c)`
returns 3. -/
theorem c1_eviction_least_recently_touched
    (cap : Nat) (dttl : Int) (ops : List (Lru.Op Nat Nat))
    (now : Int) (k v : Nat) (ttl : Int)
    (hcap : 1 ≤ cap) (httl : 0 ≤ ttl)
    (hfull : (Lru.run cap dttl ops).order.length = cap)
    (hfresh : Lru.findEntry? (Lru.run cap dttl ops).order k = none) :
    (∃ c2, Lru.SetWithTTL (Lru.run cap dttl ops) now k v ttl = Except.ok c2 ∧
       c2.order.map Lru.Entry.key
         = k :: ((Lru.run cap dttl ops).order.map Lru.Entry.key).dropLast) ∧
    (∀ b ∈ (Lru.run cap dttl ops).order.getLast?, ∀ e ∈ (Lru.run cap dttl ops).order,
       Lru.lastTouch cap dttl ops b.key ≤ Lru.lastTouch cap dttl ops e.key) ∧
    ((Lru.Get (Lru.run 2 0 [Lru.Op.set 0 0 1 0, Lru.Op.set 0 1 2 0, Lru.Op.get 0 0,
        Lru.Op.set 0 2 3 0]) 0 1).1 = none ∧
     (Lru.Get ((Lru.Get (Lru.run 2 0 [Lru.Op.set 0 0 1 0, Lru.Op.set 0 1 2 0, Lru.Op.get 0 0,
        Lru.Op.set 0 2 3 0]) 0 1).2) 0 0).1 = some 1 ∧
     (Lru.Get ((Lru.Get ((Lru.Get (Lru.run 2 0 [Lru.Op.set 0 0 1 0, Lru.Op.set 0 1 2 0,
        Lru.Op.get 0 0, Lru.Op.set 0 2 3 0]) 0 1).2) 0 0).2) 0 2).1 = some 3) := by
  have hne : (Lru.run cap dttl ops).order ≠ [] := by
    refine List.length_pos.mp ?_
    omega
  have hcapc : (Lru.run cap dttl ops).capacity = cap := Lru.run_capacity cap dttl ops
  refine ⟨?_, ?_, ?_, ?_, ?_⟩
  · rw [Lru.SetWithTTL, if_neg (by omega)]
    simp only [hfresh]
    refine ⟨_, rfl, ?_⟩
    rw [hcapc, Lru.enforceCapacityLocked_eq_dropLast cap _ (by simp [hfull]),
      List.dropLast_cons_of_ne_nil hne]
    simp [List.map_dropLast]
  · intro b hbmem e he
    have hinv := Lru.grun_inv (K := Nat) (V := Nat) cap dttl ops
    obtain ⟨hp, -⟩ := hinv
    rw [Lru.grun_cache] at hp
    rw [List.getLast?_eq_getLast _ hne] at hbmem
    have hb : b = (Lru.run cap dttl ops).order.getLast hne := by
      have := hbmem
      simp only [Option.mem_def, Option.some.injEq] at this
      exact this.symm
    subst hb
    have hsplit := List.dropLast_append_getLast hne
    have hmem2 : e ∈ (Lru.run cap dttl ops).order.dropLast
        ++ [(Lru.run cap dttl ops).order.getLast hne] := by
      rw [hsplit]
      exact he
    rcases List.mem_append.mp hmem2 with hd | hl
    · exact le_of_lt (pairwiseGetLastMin _ _ hp hne e hd)
    · rw [List.mem_singleton.mp hl]
  · simp [Lru.run, Lru.step, Lru.SetWithTTL, Lru.Get, Lru.findEntry?, Lru.removeKey,
      Lru.isExpired, Lru.empty, Lru.enforceCapacityLocked_eq_take, List.find?, List.eraseP]
  · simp [Lru.run, Lru.step, Lru.SetWithTTL, Lru.Get, Lru.findEntry?, Lru.removeKey,
      Lru.isExpired, Lru.empty, Lru.enforceCapacityLocked_eq_take, List.find?, List.eraseP]
  · simp [Lru.run, Lru.step, Lru.SetWithTTL, Lru.Get, Lru.findEntry?, Lru.removeKey,
      Lru.isExpired, Lru.empty, Lru.enforceCapacityLocked_eq_take, List.find?, List.eraseP]

/-- C1 witness: the cache filled by `Set(0,1)` then `Set(1,2)` at capacity 2,
then a fresh key 2 inserted. -/
theorem c1_eviction_least_recently_touched_witness :
    1 ≤ 2 ∧ (0:Int) ≤ 0 ∧
    (Lru.run 2 0 [Lru.Op.set 0 0 1 0, Lru.Op.set 0 1 2 0]).order.length = 2 ∧
    Lru.findEntry? (Lru.run 2 0 [Lru.Op.set 0 0 1 0, Lru.Op.set 0 1 2 0]).order 2 = none ∧
    ((∃ c2, Lru.SetWithTTL (Lru.run 2 0 [Lru.Op.set 0 0 1 0, Lru.Op.set 0 1 2 0]) 0 2 9 0
          = Except.ok c2 ∧
        c2.order.map Lru.Entry.key
          = 2 :: ((Lru.run 2 0 [Lru.Op.set 0 0 1 0,
              Lru.Op.set 0 1 2 0]).order.map Lru.Entry.key).dropLast) ∧
     (∀ b ∈ (Lru.run 2 0 [Lru.Op.set 0 0 1 0, Lru.Op.set 0 1 2 0]).order.getLast?,
        ∀ e ∈ (Lru.run 2 0 [Lru.Op.set 0 0 1 0, Lru.Op.set 0 1 2 0]).order,
          Lru.lastTouch 2 0 [Lru.Op.set 0 0 1 0, Lru.Op.set 0 1 2 0] b.key
            ≤ Lru.lastTouch 2 0 [Lru.Op.set 0 0 1 0, Lru.Op.set 0 1 2 0] e.key) ∧
     ((Lru.Get (Lru.run 2 0 [Lru.Op.set 0 0 1 0, Lru.Op.set 0 1 2 0, Lru.Op.get 0 0,
         Lru.Op.set 0 2 3 0]) 0 1).1 = none ∧
      (Lru.Get ((Lru.Get (Lru.run 2 0 [Lru.Op.set 0 0 1 0, Lru.Op.set 0 1 2 0, Lru.Op.get 0 0,
         Lru.Op.set 0 2 3 0]) 0 1).2) 0 0).1 = some 1 ∧
      (Lru.Get ((Lru.Get ((Lru.Get (Lru.run 2 0 [Lru.Op.set 0 0 1 0, Lru.Op.set 0 1 2 0,
         Lru.Op.get 0 0, Lru.Op.set 0 2 3 0]) 0 1).2) 0 0).2) 0 2).1 = some 3)) :=
  ⟨by decide, by decide,
    by simp [Lru.run, Lru.step, Lru.SetWithTTL, Lru.findEntry?, Lru.empty,
      Lru.enforceCapacityLocked_eq_take, List.find?],
    by simp [Lru.run, Lru.step, Lru.SetWithTTL, Lru.findEntry?, Lru.empty,
      Lru.enforceCapacityLocked_eq_take, List.find?],
    c1_eviction_least_recently_touched 2 0 [Lru.Op.set 0 0 1 0, Lru.Op.set 0 1 2 0]
      0 2 9 0 (by decide) (by decide)
      (by simp [Lru.run, Lru.step, Lru.SetWithTTL, Lru.findEntry?, Lru.empty,
        Lru.enforceCapacityLocked_eq_take, List.find?])
      (by simp [Lru.run, Lru.step, Lru.SetWithTTL, Lru.findEntry?, Lru.empty,
        Lru.enforceCapacityLocked_eq_take, List.find?])⟩
